import Mathlib

/-!
Shallow embedding of the scene-segmentation core of NovelStudio
(`src/modules/ingestion/ingestion_epub.py`).  Text is modelled as `List Char`;
the Python regular-expression substitutions are implemented as executable
scanners over character lists.  The markup tree uses a mutual node/list pair
so that every traversal is structurally recursive and reduces in the kernel.
-/

/-- Characters of a string literal. -/
def strL (s : String) : List Char := s.data

/-- Code points Python treats as whitespace in `str.split` and `str.strip`. -/
def pyWsCodes : List Nat :=
  [9, 10, 11, 12, 13, 28, 29, 30, 31, 32, 133, 160, 5760,
   8192, 8193, 8194, 8195, 8196, 8197, 8198, 8199, 8200, 8201, 8202,
   8232, 8233, 8239, 8287, 12288]

/-- Whitespace test matching Python `str.isspace` on the characters used here. -/
def isPyWs (c : Char) : Bool := pyWsCodes.contains c.toNat

/-- Python `str.lower`; the ASCII mapping suffices for every text in the code. -/
def lowerL (l : List Char) : List Char := l.map Char.toLower

/-- Helper of `wordsOf`: accumulates the current word in reverse. -/
def wordsAux : List Char → List Char → List (List Char)
  | [], acc => if acc.isEmpty then [] else [acc.reverse]
  | c :: rest, acc =>
    if isPyWs c then
      if acc.isEmpty then wordsAux rest [] else acc.reverse :: wordsAux rest []
    else wordsAux rest (c :: acc)

/-- Python `text.split()`: maximal whitespace-free runs, empties discarded. -/
def wordsOf (l : List Char) : List (List Char) := wordsAux l []

/-- Word count of a text, Python `len(text.split())`. -/
def wcount (l : List Char) : Nat := (wordsOf l).length

/-- Python `" ".join(parts)`. -/
def joinSpace : List (List Char) → List Char
  | [] => []
  | [w] => w
  | w :: v :: ws => w ++ ' ' :: joinSpace (v :: ws)

/-- Python `text.strip()`: removes leading and trailing whitespace. -/
def stripWs (l : List Char) : List Char :=
  ((l.dropWhile isPyWs).reverse.dropWhile isPyWs).reverse

/-- Python `" ".join(text.split()).strip()`: collapses whitespace runs. -/
def collapse (l : List Char) : List Char := stripWs (joinSpace (wordsOf l))

/-- Characters admitted after the scheme by the `url_pattern` regex: the
branches `[a-zA-Z]`, `[0-9]`, the range `[$-_@.&+]` (0x24 to 0x5F), and
`[!*\(\),]`; the `%HH` branch is subsumed because `%` lies in the range. -/
def isUrlChar (c : Char) : Bool :=
  ('a' ≤ c && c ≤ 'z') || ('A' ≤ c && c ≤ 'Z') || ('0' ≤ c && c ≤ '9') ||
  (decide (36 ≤ c.toNat) && decide (c.toNat ≤ 95)) ||
  c == '!' || c == '*' || c == '\\' || c == '(' || c == ')' || c == ','

/-- Attempt of a `url_pattern` match at the head of `l`; returns the remainder
after the (greedy, leftmost) match, or `none`. -/
def tryUrl (l : List Char) : Option (List Char) :=
  let after : Option (List Char) :=
    if (strL "https://").isPrefixOf l then some (l.drop 8)
    else if (strL "http://").isPrefixOf l then some (l.drop 7)
    else none
  match after with
  | none => none
  | some r => if (r.takeWhile isUrlChar).isEmpty then none
              else some (r.dropWhile isUrlChar)

/-- Fueled scanner for `url_pattern.sub('', text)`; each step consumes at
least one character, so fuel `l.length` is always sufficient. -/
def urlSubF : Nat → List Char → List Char
  | 0, l => l
  | _, [] => []
  | f + 1, c :: rest =>
    match tryUrl (c :: rest) with
    | some r => urlSubF f r
    | none => c :: urlSubF f rest

/-- Python `self.url_pattern.sub('', text)`. -/
def urlSub (l : List Char) : List Char := urlSubF l.length l

/-- Alternatives of `html_garbage_pattern`, already lower-cased. -/
def garbageTokens : List (List Char) :=
  [strL "html public", strL "w3c", strL "dtd xhtml", strL "xmlns",
   strL "xml version", strL "doctype", strL "encoding="]

/-- Case-insensitive test for a `html_garbage_pattern` alternative at the head. -/
def isGarbageStart (l : List Char) : Bool :=
  garbageTokens.any (fun t => t.isPrefixOf (lowerL l))

/-- Fueled scanner for `html_garbage_pattern.sub('', text)`: at a match the
token and the rest of its line (`.*` does not cross a newline) are dropped. -/
def garbageSubF : Nat → List Char → List Char
  | 0, l => l
  | _, [] => []
  | f + 1, c :: rest =>
    if isGarbageStart (c :: rest) then
      garbageSubF f (rest.dropWhile (fun x => x != '\n'))
    else c :: garbageSubF f rest

/-- Python `self.html_garbage_pattern.sub('', text)`. -/
def garbageSub (l : List Char) : List Char := garbageSubF l.length l

/-- Noise tokens rejected by `clean_text` after lower-casing. -/
def noiseTokens : List (List Char) :=
  [[], strL "html", strL "xml", strL "content-type"]

/-- Python `EpubIngestor.clean_text`. -/
def clean_text (text : List Char) : List Char :=
  if text.isEmpty then []
  else
    let c := collapse (garbageSub (urlSub text))
    if lowerL c ∈ noiseTokens then [] else c

/-- Fueled scanner for `re.split(r'(?<=[.!?]) +', text)`: a split point is a
maximal run of spaces whose preceding character is `.`, `!` or `?`.  The
accumulator holds the current segment reversed; fuel `l.length + 1` always
suffices since every step consumes a character. -/
def ssAuxF : Nat → List Char → List Char → List (List Char)
  | 0, l, acc => [acc.reverse ++ l]
  | _ + 1, [], acc => [acc.reverse]
  | f + 1, c :: rest, acc =>
    match acc with
    | p :: _ =>
      if c == ' ' && (p == '.' || p == '!' || p == '?') then
        acc.reverse :: ssAuxF f (rest.dropWhile (fun x => x == ' ')) []
      else ssAuxF f rest (c :: acc)
    | [] => ssAuxF f rest (c :: acc)

/-- Sentence segmentation used by `split_large_text`. -/
def sentenceSplit (l : List Char) : List (List Char) := ssAuxF (l.length + 1) l []

/-- Sentence-greedy chunking loop of `split_large_text`: `cur` is the list of
sentences of the open chunk and `cnt` its running word count. -/
def chunkLoop (m : Nat) : List (List Char) → List (List Char) → Nat → List (List Char)
  | [], cur, _ => if cur.isEmpty then [] else [joinSpace cur]
  | s :: rest, cur, cnt =>
    let swc := wcount s
    if m < cnt + swc then
      if cur.isEmpty then chunkLoop m rest [s] swc
      else joinSpace cur :: chunkLoop m rest [s] swc
    else chunkLoop m rest (cur ++ [s]) (cnt + swc)

/-- Python `EpubIngestor.split_large_text`. -/
def split_large_text (text : List Char) (max_words : Nat) : List (List Char) :=
  if (wordsOf text).length ≤ max_words then [text]
  else chunkLoop max_words (sentenceSplit text) [] 0

/-- Tag kinds the walk distinguishes; every other markup name is `other`. -/
inductive Tag where
  | p | div | hr | h1 | h2 | h3 | other
deriving DecidableEq

mutual
/-- A markup node: a text node or an element with children. -/
inductive Node where
  | textNode (s : List Char)
  | elem (tag : Tag) (children : NodeList)
/-- A sequence of sibling nodes (a mutual list type, so that traversals are
structurally recursive and reduce in the kernel). -/
inductive NodeList where
  | nil
  | cons (head : Node) (tail : NodeList)
end

/-- Builds a `NodeList` from an ordinary list, for readable item literals. -/
def nl : List Node → NodeList
  | [] => NodeList.nil
  | n :: rest => NodeList.cons n (nl rest)

/-- Tag of a node (`other` for bare text). -/
def tagOfNode : Node → Tag
  | .textNode _ => Tag.other
  | .elem t _ => t

/-- Tags selected by `find_all(['p', 'div', 'hr', 'h1', 'h2', 'h3'])`. -/
def isTargetTag : Tag → Bool
  | Tag.p => true | Tag.div => true | Tag.hr => true
  | Tag.h1 => true | Tag.h2 => true | Tag.h3 => true
  | Tag.other => false

/-- Tags selected by `soup.find(['h1', 'h2', 'h3'])`. -/
def isHeadingTag : Tag → Bool
  | Tag.h1 => true | Tag.h2 => true | Tag.h3 => true
  | _ => false

mutual
/-- Text-node strings of a subtree in document order. -/
def allStrings : Node → List (List Char)
  | .textNode s => [s]
  | .elem _ ch => allStringsL ch
/-- Text-node strings of a forest in document order. -/
def allStringsL : NodeList → List (List Char)
  | .nil => []
  | .cons n rest => allStrings n ++ allStringsL rest
end

/-- BeautifulSoup `get_text(strip=True)`: strings stripped, empties dropped,
joined without separator. -/
def getTextStrip (n : Node) : List Char :=
  (((allStrings n).map stripWs).filter (fun s => !s.isEmpty)).flatten

/-- BeautifulSoup `get_text()` without stripping. -/
def getTextRaw (n : Node) : List Char := (allStrings n).flatten

mutual
/-- Pre-order collection of the target-tag elements of a subtree. -/
def findAllN : Node → List Node
  | .textNode _ => []
  | .elem t ch =>
    if isTargetTag t then Node.elem t ch :: findAllL ch else findAllL ch
/-- Pre-order collection of the target-tag elements of a forest. -/
def findAllL : NodeList → List Node
  | .nil => []
  | .cons n rest => findAllN n ++ findAllL rest
end

/-- Document-order list of paragraph, division, break and heading elements,
mirroring `root.find_all(['p', 'div', 'hr', 'h1', 'h2', 'h3'])`. -/
def find_all (nodes : NodeList) : List Node := findAllL nodes

mutual
/-- Pre-order search for the first heading element in a subtree. -/
def findHeaderN : Node → Option Node
  | .textNode _ => none
  | .elem t ch =>
    if isHeadingTag t then some (Node.elem t ch) else findHeaderL ch
/-- Pre-order search for the first heading element in a forest. -/
def findHeaderL : NodeList → Option Node
  | .nil => none
  | .cons n rest =>
    match findHeaderN n with
    | some h => some h
    | none => findHeaderL rest
end

/-- First heading element of an item, mirroring `soup.find(['h1', 'h2', 'h3'])`. -/
def findHeader (nodes : NodeList) : Option Node := findHeaderL nodes

/-- Prefixes that mark code-like noise in `process_item_content`. -/
def codeMarkers : List (List Char) :=
  [strL "\x7b", strL "var ", strL "/*", strL "function("]

/-- Python `clean_content.startswith(("\x7b", "var ", "/*", "function("))`. -/
def codeLike (c : List Char) : Bool := codeMarkers.any (fun m => m.isPrefixOf c)

/-- Glyphs of the visual-separator class besides whitespace. -/
def sepGlyphs : List Char := ['*', '-', '_', '~', '•']

/-- Python `separator_pattern.match(clean_content)` with its anchors: at least
three characters, all drawn from whitespace and the separator glyphs. -/
def isSeparator (c : List Char) : Bool :=
  decide (3 ≤ c.length) && c.all (fun ch => isPyWs ch || sepGlyphs.contains ch)

/-- Flush of the scene accumulator: join with single spaces, strip, emit when
non-empty. -/
def flushScenes (scenes : List (List Char)) (cur : List (List Char)) : List (List Char) :=
  if cur.isEmpty then scenes
  else
    let ft := stripWs (joinSpace cur)
    if ft.isEmpty then scenes else scenes ++ [ft]

/-- The per-element loop of `process_item_content` over the `find_all` output:
`hr` flushes; separator text flushes; valid prose accumulates. -/
def walkLoop : List Node → List (List Char) → List (List Char) → List (List Char)
  | [], scenes, cur => flushScenes scenes cur
  | .elem Tag.hr _ :: rest, scenes, cur => walkLoop rest (flushScenes scenes cur) []
  | n :: rest, scenes, cur =>
    let c := clean_text (getTextStrip n)
    if c.isEmpty then walkLoop rest scenes cur
    else if isSeparator c then walkLoop rest (flushScenes scenes cur) []
    else if decide (2 < c.length) && !codeLike c then walkLoop rest scenes (cur ++ [c])
    else walkLoop rest scenes cur

/-- Raw scene texts of an item, before title filtering and chunking. -/
def detectScenes (nodes : NodeList) : List (List Char) :=
  walkLoop (find_all nodes) [] []

/-- Running state of the numbering assigner. -/
structure NumState where
  last_chapter_num : Nat
  sub_chapter_count : Nat
deriving DecidableEq

/-- Numeric value of a digit run. -/
def digitsVal (ds : List Char) : Nat :=
  ds.foldl (fun a c => a * 10 + (c.toNat - 48)) 0

/-- First maximal decimal-digit run of a text, as `number_extractor.search`. -/
def firstDigitRun : List Char → Option Nat
  | [] => none
  | c :: rest =>
    if c.isDigit then some (digitsVal (c :: rest.takeWhile Char.isDigit))
    else firstDigitRun rest

/-- Decimal rendering of a natural number. -/
def natStr (n : Nat) : List Char := (toString n).data

/-- Python `EpubIngestor.get_next_chapter_number`, state passed explicitly. -/
def get_next_chapter_number (st : NumState) (title : List Char) : List Char × NumState :=
  match firstDigitRun title with
  | some n => (natStr n, ⟨n, 0⟩)
  | none =>
    if st.last_chapter_num = 0 then (natStr 1, ⟨1, 0⟩)
    else (natStr st.last_chapter_num ++ '.' :: natStr (st.sub_chapter_count + 1),
          ⟨st.last_chapter_num, st.sub_chapter_count + 1⟩)

/-- An emitted scene. -/
structure Scene where
  scene_id : Nat
  text : List Char
deriving DecidableEq

/-- An emitted chapter. -/
structure Chapter where
  title : List Char
  chapter : List Char
  scenes : List Scene
deriving DecidableEq

/-- Appends the non-blank chunks of one scene text, numbering each with the
running count of scenes emitted so far. -/
def addChunks : List (List Char) → List Scene → List Scene
  | [], acc => acc
  | c :: rest, acc =>
    if (stripWs c).isEmpty then addChunks rest acc
    else addChunks rest (acc ++ [⟨acc.length + 1, c⟩])

/-- Final-scene construction of `process_item_content`: drops scene texts
equal to the chapter title (case-insensitively) and chunks the rest. -/
def buildFinal : List (List Char) → List Char → List Scene → List Scene
  | [], _, acc => acc
  | t :: rest, title, acc =>
    if lowerL t = lowerL title then buildFinal rest title acc
    else buildFinal rest title (addChunks (split_large_text t 1500) acc)

/-- Chapter title detection: the first heading, cleaned; otherwise the
synthetic `"Capítulo \x7bchapter_id\x7d"` placeholder. -/
def detectTitle (item : NodeList) (chapterId : Nat) : List Char :=
  match findHeader item with
  | some h => clean_text (getTextRaw h)
  | none => strL ("Capítulo " ++ toString chapterId)

/-- Python `EpubIngestor.process_item_content`, numbering state threaded. -/
def process_item_content (item : NodeList) (chapterId : Nat) (st : NumState) :
    Option Chapter × NumState :=
  let title := detectTitle item chapterId
  let r := get_next_chapter_number st title
  let finals := buildFinal (detectScenes item) title []
  (if finals.isEmpty then none else some ⟨title, r.1, finals⟩, r.2)

/-- A spine item: identifier plus body nodes (all items modelled as documents). -/
structure DocItem where
  id : Nat
  nodes : NodeList

/-- The spine loop of `EpubIngestor.run`: skips already-seen identifiers,
counts processed items, threads numbering state, keeps returned chapters. -/
def runLoop : List DocItem → List Nat → Nat → NumState → List Chapter → List Chapter
  | [], _, _, _, acc => acc
  | it :: rest, seen, counter, st, acc =>
    if it.id ∈ seen then runLoop rest seen counter st acc
    else
      let r := process_item_content it.nodes (counter + 1) st
      match r.1 with
      | some ch => runLoop rest (it.id :: seen) (counter + 1) r.2 (acc ++ [ch])
      | none => runLoop rest (it.id :: seen) (counter + 1) r.2 acc

/-- Chapters retained in the output structure for a list of spine items. -/
def runIngest (items : List DocItem) : List Chapter :=
  runLoop items [] 0 ⟨0, 0⟩ []

/-! ### Concrete document items used by the claim theorems -/

/-- Item of the end-to-end scenario: a level-1 heading, three paragraphs (one
a separator), and an explicit break. -/
def c1Item : NodeList := nl
  [Node.elem Tag.h1 (nl [Node.textNode (strL "Chapter 2")]),
   Node.elem Tag.p (nl [Node.textNode (strL "He walked in.")]),
   Node.elem Tag.p (nl [Node.textNode (strL "***")]),
   Node.elem Tag.p (nl [Node.textNode (strL "She spoke last.")]),
   Node.elem Tag.hr NodeList.nil]

/-- Item consisting of a single paragraph with the given text. -/
def pItem (s : String) : NodeList :=
  nl [Node.elem Tag.p (nl [Node.textNode (strL s)])]

/-- Item whose heading text normalizes to the empty string. -/
def c4Item : NodeList := nl
  [Node.elem Tag.h1 (nl [Node.textNode (strL "html")]),
   Node.elem Tag.p (nl [Node.textNode (strL "Hello there friend.")])]

/-- Item with a level-3 heading followed by a paragraph. -/
def c6Item : NodeList := nl
  [Node.elem Tag.h3 (nl [Node.textNode (strL "Morning light")]),
   Node.elem Tag.p (nl [Node.textNode (strL "Birds sang loudly.")])]

/-- Item with a heading of the given tag followed by a paragraph. -/
def c6HeadItem (t : Tag) : NodeList := nl
  [Node.elem t (nl [Node.textNode (strL "Evening falls")]),
   Node.elem Tag.p (nl [Node.textNode (strL "The rain began.")])]

/-- Item with a paragraph nested inside a division. -/
def c10Item : NodeList := nl
  [Node.elem Tag.div (nl [Node.elem Tag.p (nl [Node.textNode (strL "Night fell over the city.")])])]

/-! ### Lemmas about word splitting, joining and whitespace collapsing -/

theorem isPyWs_space : isPyWs ' ' = true := by decide

theorem wordsAux_append_space (b : List Char) :
    ∀ (a acc : List Char),
      wordsAux (a ++ ' ' :: b) acc = wordsAux a acc ++ wordsAux b [] := by
  intro a
  induction a with
  | nil =>
    intro acc
    by_cases h : acc.isEmpty <;> simp [wordsAux, isPyWs_space, h]
  | cons c rest ih =>
    intro acc
    by_cases hc : isPyWs c = true
    · by_cases h : acc.isEmpty <;> simp [wordsAux, hc, h, ih]
    · simp [wordsAux, hc, ih]

theorem wordsAux_mem (l : List Char) :
    ∀ (acc : List Char), (∀ c ∈ acc, isPyWs c = false) →
      ∀ w ∈ wordsAux l acc, w ≠ [] ∧ ∀ c ∈ w, isPyWs c = false := by
  induction l with
  | nil =>
    intro acc hacc w hw
    by_cases h : acc.isEmpty
    · simp [wordsAux, h] at hw
    · simp [wordsAux, h] at hw
      subst hw
      refine ⟨by simpa using fun h0 => by simp [h0] at h, ?_⟩
      intro c hc
      exact hacc c (List.mem_reverse.mp hc)
  | cons c rest ih =>
    intro acc hacc w hw
    by_cases hc : isPyWs c = true
    · by_cases h : acc.isEmpty
      · rw [wordsAux, if_pos hc, if_pos h] at hw
        exact ih [] (by simp) w hw
      · rw [wordsAux, if_pos hc, if_neg h] at hw
        rcases List.mem_cons.mp hw with rfl | hw2
        · refine ⟨by simpa using fun h0 => by simp [h0] at h, ?_⟩
          intro x hx
          exact hacc x (List.mem_reverse.mp hx)
        · exact ih [] (by simp) w hw2
    · rw [wordsAux, if_neg hc] at hw
      refine ih (c :: acc) ?_ w hw
      intro x hx
      rcases List.mem_cons.mp hx with rfl | hx2
      · simpa using hc
      · exact hacc x hx2

theorem wordsAux_noWs_run :
    ∀ (w acc : List Char), (∀ c ∈ w, isPyWs c = false) →
      wordsAux w acc =
        if (acc.reverse ++ w).isEmpty then [] else [acc.reverse ++ w] := by
  intro w
  induction w with
  | nil => intro acc _; simp [wordsAux]
  | cons c w2 ih =>
    intro acc h
    have hc : isPyWs c = false := h c (by simp)
    rw [wordsAux, if_neg (by simp [hc])]
    rw [ih (c :: acc) (fun x hx => h x (by simp [hx]))]
    simp

theorem wordsOf_single (w : List Char) (hne : w ≠ [])
    (hn : ∀ c ∈ w, isPyWs c = false) : wordsOf w = [w] := by
  unfold wordsOf
  rw [wordsAux_noWs_run w [] hn]
  simp [hne]

theorem words_joinSpace :
    ∀ W : List (List Char),
      (∀ w ∈ W, w ≠ [] ∧ ∀ c ∈ w, isPyWs c = false) →
      wordsOf (joinSpace W) = W := by
  intro W
  induction W with
  | nil => intro _; simp [joinSpace, wordsOf, wordsAux]
  | cons w tail ih =>
    intro h
    cases tail with
    | nil =>
      have hw := h w (by simp)
      simpa [joinSpace] using wordsOf_single w hw.1 hw.2
    | cons v W2 =>
      have hw := h w (by simp)
      show wordsAux (w ++ ' ' :: joinSpace (v :: W2)) [] = w :: v :: W2
      rw [wordsAux_append_space]
      have h1 : wordsAux w [] = [w] := wordsOf_single w hw.1 hw.2
      have h2 : wordsAux (joinSpace (v :: W2)) [] = v :: W2 :=
        ih (fun x hx => h x (by simp [hx]))
      rw [h1, h2]
      rfl

theorem wordsOf_dropWhile_ws (l : List Char) :
    wordsOf (l.dropWhile isPyWs) = wordsOf l := by
  induction l with
  | nil => rfl
  | cons c rest ih =>
    by_cases hc : isPyWs c = true
    · rw [List.dropWhile_cons]
      simp only [hc, if_true]
      rw [ih]
      show wordsOf rest = wordsAux (c :: rest) []
      rw [wordsAux, if_pos hc]
      simp [wordsOf]
    · rw [List.dropWhile_cons]
      simp [hc]

theorem wordsAux_all_ws (z : List Char) (hz : ∀ c ∈ z, isPyWs c = true) :
    ∀ acc, wordsAux z acc = wordsAux [] acc := by
  induction z with
  | nil => intro _; rfl
  | cons c r ih =>
    intro acc
    have hc : isPyWs c = true := hz c (by simp)
    have ihr := ih (fun x hx => hz x (by simp [hx]))
    conv_lhs => rw [wordsAux]
    rw [if_pos hc]
    by_cases ha : acc.isEmpty
    · rw [if_pos ha, ihr []]
      simp [wordsAux, List.isEmpty_iff.mp ha]
    · rw [if_neg ha, ihr []]
      simp [wordsAux, ha]

theorem wordsAux_ws_suffix (z : List Char) (hz : ∀ c ∈ z, isPyWs c = true) :
    ∀ (y acc : List Char), wordsAux (y ++ z) acc = wordsAux y acc := by
  intro y
  induction y with
  | nil => intro acc; simpa using wordsAux_all_ws z hz acc
  | cons c y2 ih =>
    intro acc
    by_cases hc : isPyWs c = true
    · by_cases ha : acc.isEmpty <;> simp [wordsAux, hc, ha, ih]
    · simp [wordsAux, hc, ih]

theorem wordsOf_stripWs (l : List Char) : wordsOf (stripWs l) = wordsOf l := by
  unfold stripWs
  rw [← wordsOf_dropWhile_ws l]
  set x1 := l.dropWhile isPyWs with hx1
  have hdecomp :
      x1 = (x1.reverse.dropWhile isPyWs).reverse ++ (x1.reverse.takeWhile isPyWs).reverse := by
    conv_lhs => rw [← List.reverse_reverse x1,
      ← List.takeWhile_append_dropWhile (p := isPyWs) (l := x1.reverse)]
    rw [List.reverse_append]
  conv_rhs => rw [hdecomp]
  have hz : ∀ c ∈ (x1.reverse.takeWhile isPyWs).reverse, isPyWs c = true := by
    intro c hc
    exact List.mem_takeWhile_imp (List.mem_reverse.mp hc)
  exact (wordsAux_ws_suffix _ hz _ []).symm

theorem wordsOf_collapse (l : List Char) : wordsOf (collapse l) = wordsOf l := by
  show wordsOf (stripWs (joinSpace (wordsOf l))) = wordsOf l
  rw [wordsOf_stripWs]
  exact words_joinSpace (wordsOf l) (fun w hw => wordsAux_mem l [] (by simp) w hw)

theorem collapse_idem (l : List Char) : collapse (collapse l) = collapse l := by
  show stripWs (joinSpace (wordsOf (collapse l))) = collapse l
  rw [wordsOf_collapse]
  rfl

/-! ### Structure of the normalizer output -/

theorem clean_shape (x : List Char) :
    clean_text x = [] ∨
      ((∃ t, clean_text x = collapse t) ∧ lowerL (clean_text x) ∉ noiseTokens) := by
  by_cases h1 : x.isEmpty
  · left
    simp [clean_text, h1]
  · by_cases h2 : lowerL (collapse (garbageSub (urlSub x))) ∈ noiseTokens
    · left
      simp [clean_text, h1, h2]
    · right
      have hval : clean_text x = collapse (garbageSub (urlSub x)) := by
        simp [clean_text, h1, h2]
      rw [hval]
      exact ⟨⟨_, rfl⟩, h2⟩

theorem clean_text_nil : clean_text [] = [] := rfl

/-! ### Lemmas for the chunk bound -/

theorem joinSpace_concat (s : List Char) :
    ∀ W : List (List Char), W ≠ [] → joinSpace (W ++ [s]) = joinSpace W ++ ' ' :: s := by
  intro W
  induction W with
  | nil => intro h; exact absurd rfl h
  | cons w tail ih =>
    intro _
    cases tail with
    | nil => simp [joinSpace]
    | cons v W2 =>
      show joinSpace (w :: v :: (W2 ++ [s])) = joinSpace (w :: v :: W2) ++ ' ' :: s
      rw [joinSpace]
      rw [show (v :: (W2 ++ [s])) = (v :: W2) ++ [s] from rfl]
      rw [ih (by simp)]
      simp [joinSpace]

theorem wcount_append_space (a b : List Char) :
    wcount (a ++ ' ' :: b) = wcount a + wcount b := by
  show (wordsAux (a ++ ' ' :: b) []).length = _
  rw [wordsAux_append_space]
  simp [wcount, wordsOf]

theorem wcount_joinSpace_concat (W : List (List Char)) (s : List Char) :
    wcount (joinSpace (W ++ [s])) = wcount (joinSpace W) + wcount s := by
  cases W with
  | nil => simp [joinSpace, wcount, wordsOf, wordsAux]
  | cons w tail =>
    rw [joinSpace_concat s (w :: tail) (by simp), wcount_append_space]

theorem chunkLoop_sound (m : Nat) (S : List (List Char)) :
    ∀ (sl cur : List (List Char)) (cnt : Nat),
      (∀ s ∈ sl, s ∈ S) →
      cnt = wcount (joinSpace cur) →
      (m < cnt → ∃ s, cur = [s] ∧ s ∈ S) →
      ∀ c ∈ chunkLoop m sl cur cnt, wcount c ≤ m ∨ (c ∈ S ∧ m < wcount c) := by
  intro sl
  induction sl with
  | nil =>
    intro cur cnt hS hcnt hbig c hc
    simp only [chunkLoop] at hc
    by_cases hcur : cur.isEmpty
    · simp [hcur] at hc
    · rw [if_neg hcur] at hc
      simp at hc
      subst hc
      by_cases hlt : m < cnt
      · obtain ⟨s, rfl, hsS⟩ := hbig hlt
        right
        refine ⟨by simpa [joinSpace] using hsS, ?_⟩
        rw [← hcnt]
        exact hlt
      · left
        rw [← hcnt]
        omega
  | cons s rest ih =>
    intro cur cnt hS hcnt hbig c hc
    simp only [chunkLoop] at hc
    by_cases hover : m < cnt + wcount s
    · rw [if_pos hover] at hc
      by_cases hcur : cur.isEmpty
      · rw [if_pos hcur] at hc
        refine ih [s] (wcount s) (fun x hx => hS x (by simp [hx])) (by simp [joinSpace]) ?_ c hc
        intro _
        exact ⟨s, rfl, hS s (by simp)⟩
      · rw [if_neg hcur] at hc
        rcases List.mem_cons.mp hc with rfl | hc2
        · by_cases hlt : m < cnt
          · obtain ⟨s0, rfl, hs0⟩ := hbig hlt
            right
            refine ⟨by simpa [joinSpace] using hs0, ?_⟩
            rw [← hcnt]
            exact hlt
          · left
            rw [← hcnt]
            omega
        · refine ih [s] (wcount s) (fun x hx => hS x (by simp [hx])) (by simp [joinSpace]) ?_ c hc2
          intro _
          exact ⟨s, rfl, hS s (by simp)⟩
    · rw [if_neg hover] at hc
      refine ih (cur ++ [s]) (cnt + wcount s) (fun x hx => hS x (by simp [hx])) ?_ ?_ c hc
      · rw [wcount_joinSpace_concat, ← hcnt]
      · intro hlt
        exact absurd hlt hover

/-! ### Lemmas for scene numbering -/

theorem range'_snoc : ∀ (n s : Nat), List.range' s (n + 1) = List.range' s n ++ [s + n] := by
  intro n
  induction n with
  | zero => intro s; simp [List.range']
  | succ k ih =>
    intro s
    rw [List.range'_succ s (k + 1) 1, ih (s + 1), List.range'_succ s k 1]
    simp [List.cons_append, Nat.add_assoc, Nat.add_comm 1 k]

theorem addChunks_nums :
    ∀ (cs : List (List Char)) (acc : List Scene),
      acc.map Scene.scene_id = List.range' 1 acc.length →
      (addChunks cs acc).map Scene.scene_id = List.range' 1 (addChunks cs acc).length := by
  intro cs
  induction cs with
  | nil => intro acc h; simpa [addChunks] using h
  | cons c rest ih =>
    intro acc h
    simp only [addChunks]
    by_cases hb : (stripWs c).isEmpty
    · rw [if_pos hb]
      exact ih acc h
    · rw [if_neg hb]
      refine ih _ ?_
      rw [List.map_append, h, List.length_append]
      simp only [List.map_cons, List.map_nil, List.length_cons, List.length_nil]
      rw [range'_snoc acc.length 1]
      congr 2
      omega

theorem buildFinal_nums :
    ∀ (ts : List (List Char)) (title : List Char) (acc : List Scene),
      acc.map Scene.scene_id = List.range' 1 acc.length →
      (buildFinal ts title acc).map Scene.scene_id
        = List.range' 1 (buildFinal ts title acc).length := by
  intro ts
  induction ts with
  | nil => intro title acc h; simpa [buildFinal] using h
  | cons t rest ih =>
    intro title acc h
    simp only [buildFinal]
    by_cases ht : lowerL t = lowerL title
    · rw [if_pos ht]
      exact ih title acc h
    · rw [if_neg ht]
      exact ih title _ (addChunks_nums _ acc h)

theorem process_item_nums (item : NodeList) (cid : Nat) (st : NumState) (ch : Chapter)
    (h : (process_item_content item cid st).1 = some ch) :
    ch.scenes.map Scene.scene_id = List.range' 1 ch.scenes.length := by
  simp only [process_item_content] at h
  split at h
  · exact absurd h (by simp)
  · simp only [Option.some.injEq] at h
    subst h
    exact buildFinal_nums _ _ [] (by simp)

theorem runLoop_nums :
    ∀ (items : List DocItem) (seen : List Nat) (counter : Nat) (st : NumState)
      (acc : List Chapter),
      (∀ ch ∈ acc, ch.scenes.map Scene.scene_id = List.range' 1 ch.scenes.length) →
      ∀ ch ∈ runLoop items seen counter st acc,
        ch.scenes.map Scene.scene_id = List.range' 1 ch.scenes.length := by
  intro items
  induction items with
  | nil =>
    intro seen counter st acc hacc ch hch
    simp only [runLoop] at hch
    exact hacc ch hch
  | cons it rest ih =>
    intro seen counter st acc hacc ch hch
    simp only [runLoop] at hch
    by_cases hseen : it.id ∈ seen
    · rw [if_pos hseen] at hch
      exact ih _ _ _ _ hacc ch hch
    · rw [if_neg hseen] at hch
      cases hpr : (process_item_content it.nodes (counter + 1) st).1 with
      | some ch2 =>
        rw [hpr] at hch
        simp only [] at hch
        refine ih _ _ _ _ ?_ ch hch
        intro x hx
        rcases List.mem_append.mp hx with hx1 | hx2
        · exact hacc x hx1
        · simp only [List.mem_singleton] at hx2
          subst hx2
          exact process_item_nums _ _ _ _ hpr
      | none =>
        rw [hpr] at hch
        simp only [] at hch
        exact ih _ _ _ _ hacc ch hch

/-! ### Claim theorems -/

/-- C1 counterexample: on the end-to-end item the first scene text is
"Chapter 2 He walked in.", not "He walked in." as claimed, because the walk
also accumulates the heading text. -/
theorem c1_counterexample :
    decide ((process_item_content c1Item 1 ⟨0, 0⟩).1 =
      some ⟨strL "Chapter 2", strL "2",
        [⟨1, strL "He walked in."⟩, ⟨2, strL "She spoke last."⟩]⟩) = false := by decide

/-- C1 amended: the item yields one Chapter with label "2" and title
"Chapter 2" and two Scenes, but scene 1 carries the text
"Chapter 2 He walked in." since the heading is accumulated as prose. -/
theorem c1_amended_scenario :
    process_item_content c1Item 1 ⟨0, 0⟩ =
      (some ⟨strL "Chapter 2", strL "2",
        [⟨1, strL "Chapter 2 He walked in."⟩, ⟨2, strL "She spoke last."⟩]⟩,
       ⟨2, 0⟩) := by decide

/-- C2 counterexample: the digits-only text "1234" passes every filter and is
accepted as scene content, so the claimed all-numeric rejection does not
exist in the code. -/
theorem c2_counterexample :
    detectScenes (pItem "1234") = [strL "1234"] := by decide

/-- C2 amended: the filter has no numeric check; "42" is rejected only by the
three-character length bound, a one-line doctype text cleans to "<!" and is
rejected the same way, while a multi-line doctype text and the digits-only
"1234" are both accepted. -/
theorem c2_amended_filter :
    detectScenes (pItem "42") = [] ∧
    clean_text (strL "<!DOCTYPE html>") = strL "<!" ∧
    detectScenes (pItem "<!DOCTYPE html>") = [] ∧
    detectScenes (pItem "<!DOCTYPE html\nHe ran far and fast.")
      = [strL "<! He ran far and fast."] ∧
    detectScenes (pItem "1234") = [strL "1234"] := by decide

/-- C3 counterexample: on empty text the chunker does not return an empty
sequence. -/
theorem c3_counterexample :
    decide (split_large_text [] 1500 = []) = false := by decide

/-- C3 amended: on empty text the chunker returns the one-element sequence
holding the empty string, and the blank filter of the caller turns that
result into zero emitted Scenes. -/
theorem c3_amended_empty :
    split_large_text [] 1500 = [[]] ∧
    addChunks (split_large_text [] 1500) [] = [] := by decide

/-- C4 counterexample: a heading whose text normalizes to empty gives a
retained Chapter whose title is the empty string, not the synthetic
placeholder. -/
theorem c4_counterexample :
    (process_item_content c4Item 1 ⟨0, 0⟩).1 =
      some ⟨[], strL "1", [⟨1, strL "Hello there friend."⟩]⟩ := by decide

/-- C4 amended: the placeholder title (in the code the literal is
"Capítulo " followed by the ordinal) is used exactly when the item has no
heading element; a heading whose normalization is empty yields an empty
title. -/
theorem c4_amended_title (item : NodeList) (cid : Nat) (st : NumState) (ch : Chapter)
    (hh : findHeader item = none)
    (hp : (process_item_content item cid st).1 = some ch) :
    ch.title = strL ("Capítulo " ++ toString cid) := by
  have ht : detectTitle item cid = strL ("Capítulo " ++ toString cid) := by
    unfold detectTitle
    rw [hh]
  simp only [process_item_content] at hp
  split at hp
  · exact absurd hp (by simp)
  · simp only [Option.some.injEq] at hp
    rw [← hp]
    exact ht

/-- C4 witness: a heading-free item receives the placeholder title. -/
theorem c4_amended_title_witness :
    (process_item_content (pItem "Hello there friend.") 1 ⟨0, 0⟩).1 =
      some ⟨strL "Capítulo 1", strL "1", [⟨1, strL "Hello there friend."⟩]⟩ ∧
    (⟨strL "Capítulo 1", strL "1", [⟨1, strL "Hello there friend."⟩]⟩ : Chapter).title
      = strL ("Capítulo " ++ toString 1) :=
  ⟨by decide,
   c4_amended_title (pItem "Hello there friend.") 1 ⟨0, 0⟩
     ⟨strL "Capítulo 1", strL "1", [⟨1, strL "Hello there friend."⟩]⟩
     (by rfl) (by decide)⟩

/-- C5 counterexample: normalization is not idempotent; collapsing the tab of
"html(tab)public filler text" creates the boilerplate token "html public",
which only the second pass removes, yielding the empty string. -/
theorem c5_counterexample :
    decide (clean_text (clean_text (strL "html\tpublic filler text"))
      = clean_text (strL "html\tpublic filler text")) = false := by decide

/-- Fixpoint property of the normalizer: a text unchanged by both pattern
substitutions and by collapsing, and outside the noise set, is returned
unchanged. -/
theorem clean_text_fixpoint (y : List Char)
    (h1 : urlSub y = y) (h2 : garbageSub y = y) (h3 : collapse y = y)
    (h4 : lowerL y ∉ noiseTokens) : clean_text y = y := by
  by_cases hemp : y.isEmpty
  · rw [List.isEmpty_iff.mp hemp]
    exact clean_text_nil
  · simp only [clean_text]
    rw [if_neg hemp, h1, h2, h3, if_neg h4]

/-- C5 amended: normalization is idempotent exactly on the inputs whose first
result is itself free of URL-pattern and boilerplate-pattern matches; the
counterexample shows the unconditional claim fails. -/
theorem c5_amended_idempotent (x : List Char)
    (h1 : urlSub (clean_text x) = clean_text x)
    (h2 : garbageSub (clean_text x) = clean_text x) :
    clean_text (clean_text x) = clean_text x := by
  rcases clean_shape x with h | ⟨⟨t, ht⟩, hn⟩
  · rw [h]
    exact clean_text_nil
  · refine clean_text_fixpoint (clean_text x) h1 h2 ?_ hn
    rw [ht]
    exact collapse_idem t

/-- C5 witness: an ordinary sentence is already a fixpoint. -/
theorem c5_amended_idempotent_witness :
    clean_text (clean_text (strL "A quiet morning."))
      = clean_text (strL "A quiet morning.") :=
  c5_amended_idempotent (strL "A quiet morning.") (by decide) (by decide)

/-- C6 counterexample: the level-3 heading text "Morning light" is
accumulated and prefixes the emitted scene text, so heading text does reach
scene content. -/
theorem c6_counterexample :
    (process_item_content c6Item 1 ⟨0, 0⟩).1 =
      some ⟨strL "Morning light", strL "1",
        [⟨1, strL "Morning light Birds sang loudly."⟩]⟩ ∧
    (strL "Morning light").isPrefixOf (strL "Morning light Birds sang loudly.")
      = true := by decide

/-- C6 amended: heading elements of every level are walked like paragraphs;
their cleaned text is appended to the scene accumulator, and only a whole
scene equal to the chapter title is dropped afterwards. -/
theorem c6_amended_heading (t : Tag) (h : t = Tag.h1 ∨ t = Tag.h2 ∨ t = Tag.h3) :
    (process_item_content (c6HeadItem t) 1 ⟨0, 0⟩).1 =
      some ⟨strL "Evening falls", strL "1",
        [⟨1, strL "Evening falls The rain began."⟩]⟩ := by
  rcases h with rfl | rfl | rfl <;> decide

/-- C6 witness: instance of the amended statement at a level-1 heading. -/
theorem c6_amended_heading_witness :
    (process_item_content (c6HeadItem Tag.h1) 1 ⟨0, 0⟩).1 =
      some ⟨strL "Evening falls", strL "1",
        [⟨1, strL "Evening falls The rain began."⟩]⟩ :=
  c6_amended_heading Tag.h1 (Or.inl rfl)

/-- C7: every chunk respects the word bound except a single oversized
sentence, which is returned whole. -/
theorem c7_chunk_bound (t : List Char) (m : Nat) (hm : 1 ≤ m) :
    ∀ c ∈ split_large_text t m,
      wcount c ≤ m ∨ (c ∈ sentenceSplit t ∧ m < wcount c) := by
  intro c hc
  unfold split_large_text at hc
  by_cases h : (wordsOf t).length ≤ m
  · rw [if_pos h] at hc
    simp only [List.mem_singleton] at hc
    subst hc
    left
    exact h
  · rw [if_neg h] at hc
    exact chunkLoop_sound m (sentenceSplit t) (sentenceSplit t) [] 0
      (fun s hs => hs) rfl (fun h0 => absurd h0 (by omega)) c hc

/-- C7 witness: instance at a two-sentence text and bound four. -/
theorem c7_chunk_bound_witness :
    wcount (strL "One two three.") ≤ 4 ∨
      (strL "One two three." ∈ sentenceSplit (strL "One two three. Four five six.") ∧
        4 < wcount (strL "One two three.")) :=
  c7_chunk_bound (strL "One two three. Four five six.") 4 (by decide)
    (strL "One two three.") (by decide)

/-- C8: in every chapter retained in the output the scene sequence numbers
are exactly 1 to N. -/
theorem c8_scene_numbering (items : List DocItem) (ch : Chapter)
    (h : ch ∈ runIngest items) :
    ch.scenes.map Scene.scene_id = List.range' 1 ch.scenes.length :=
  runLoop_nums items [] 0 ⟨0, 0⟩ [] (by simp) ch h

/-- C8 witness: instance on a one-item run. -/
theorem c8_scene_numbering_witness :
    (⟨strL "Capítulo 1", strL "1", [⟨1, strL "Hello there friend."⟩]⟩ : Chapter).scenes.map
        Scene.scene_id
      = List.range' 1
          (⟨strL "Capítulo 1", strL "1", [⟨1, strL "Hello there friend."⟩]⟩ : Chapter).scenes.length :=
  c8_scene_numbering [⟨1, pItem "Hello there friend."⟩]
    ⟨strL "Capítulo 1", strL "1", [⟨1, strL "Hello there friend."⟩]⟩ (by decide)

/-- C9: the titles "Chapter 1", "Intro", "Intro" yield labels "1", "1.1",
"1.2"; a digit run always wins and resets the sub-counter, and a digit-free
title after a numbered chapter yields the dotted sub-level. -/
theorem c9_numbering :
    ((get_next_chapter_number ⟨0, 0⟩ (strL "Chapter 1")).1 = strL "1" ∧
      (get_next_chapter_number
        (get_next_chapter_number ⟨0, 0⟩ (strL "Chapter 1")).2 (strL "Intro")).1
        = strL "1.1" ∧
      (get_next_chapter_number
        (get_next_chapter_number
          (get_next_chapter_number ⟨0, 0⟩ (strL "Chapter 1")).2 (strL "Intro")).2
        (strL "Intro")).1 = strL "1.2") ∧
    (∀ (st : NumState) (title : List Char) (n : Nat),
      firstDigitRun title = some n →
      get_next_chapter_number st title = (natStr n, ⟨n, 0⟩)) ∧
    (∀ (st : NumState) (title : List Char),
      firstDigitRun title = none → 0 < st.last_chapter_num →
      get_next_chapter_number st title =
        (natStr st.last_chapter_num ++ '.' :: natStr (st.sub_chapter_count + 1),
         ⟨st.last_chapter_num, st.sub_chapter_count + 1⟩)) := by
  refine ⟨by decide, ?_, ?_⟩
  · intro st title n h
    simp [get_next_chapter_number, h]
  · intro st title h hpos
    simp only [get_next_chapter_number, h]
    rw [if_neg (by omega)]

/-- C9 witness: instances of the two general clauses at concrete states. -/
theorem c9_numbering_witness :
    get_next_chapter_number ⟨3, 2⟩ (strL "Ch 7") = (natStr 7, ⟨7, 0⟩) ∧
    get_next_chapter_number ⟨3, 2⟩ (strL "Intro")
      = (natStr 3 ++ '.' :: natStr 3, ⟨3, 3⟩) :=
  ⟨c9_numbering.2.1 ⟨3, 2⟩ (strL "Ch 7") 7 (by decide),
   c9_numbering.2.2 ⟨3, 2⟩ (strL "Intro") (by decide) (by decide)⟩

/-- C10: the walk visits the division and its nested paragraph separately, so
the nested text appears twice in the emitted scene. -/
theorem c10_nested_duplication :
    (find_all c10Item).map (fun n => (tagOfNode n, getTextStrip n)) =
      [(Tag.div, strL "Night fell over the city."),
       (Tag.p, strL "Night fell over the city.")] ∧
    (process_item_content c10Item 1 ⟨0, 0⟩).1 =
      some ⟨strL "Capítulo 1", strL "1",
        [⟨1, strL "Night fell over the city. Night fell over the city."⟩]⟩ := by decide
